import Mathlib

/-!
Verification of the ingestion-and-normalization pipeline of `src/SEC.py`
(repository ETL-Pipeline).  The definitions below are a shallow embedding of
the core logic of that file: the tab-splitting and per-field character
cleanup, the per-file row-normalization loop of `upload_append_csv_files`
(lines 268-290), the skipped-percentage metric (line 288), the per-file
control flow around `upload_to_redivis`, `write_uploaded_tables` and
`send_slack_message` (lines 251-305, 307-328), and the candidate discovery
of `get_paths_dict` (lines 188-228).  External effects (the Redivis API,
the Slack webhook, the filesystem) are modelled by oracles in an `Env`
record; the observable actions of the orchestrator are recorded as a trace
of `Event`s.
-/

namespace SEC

/-- Tab character, the field separator of `line.split('\t')`. -/
def tabChar : Char := Char.ofNat 9

/-- Newline character, removed by `.replace("\n","")`. -/
def nlChar : Char := Char.ofNat 10

/-- Backslash character, replaced by a space by `.replace("\\"," ")`. -/
def bslash : Char := Char.ofNat 92

/-- Double-quote character; `.replace("\"", '"')` maps it to itself. -/
def dquote : Char := Char.ofNat 34

/-- Single-quote character; `.replace("\'", "'")` maps it to itself. -/
def squote : Char := Char.ofNat 39

/-- Python `s.replace(a, b)` for one-character `a`, `b`: replace every
occurrence of the character `a` by `b`. -/
def pyReplaceChar (a b : Char) (s : List Char) : List Char :=
  s.map (fun c => if c = a then b else c)

/-- Python `s.replace(a, "")` for a one-character `a`: delete every
occurrence of the character `a`. -/
def pyDeleteChar (a : Char) (s : List Char) : List Char :=
  s.filter (fun c => c ≠ a)

/-- The per-field cleanup of src/SEC.py line 273:
`line.replace("\\"," ").replace("\"", '"').replace("\'", "'").replace("\n","")`
(each backslash becomes a space, the two quote replacements are identities
because their search and replacement strings are the same one character,
every newline character is deleted). -/
def cleanField (s : List Char) : List Char :=
  pyDeleteChar nlChar
    (pyReplaceChar squote squote
      (pyReplaceChar dquote dquote
        (pyReplaceChar bslash ' ' s)))

/-- Python `line.split('\t')` (src/SEC.py line 272): split on every tab,
keeping empty fields; the empty line yields one empty field. -/
def splitTab : List Char → List (List Char)
  | [] => [[]]
  | c :: cs =>
    let r := splitTab cs
    if c = tabChar then [] :: r
    else
      match r with
      | [] => [[c]]
      | f :: rest => (c :: f) :: rest

/-- A row is the list of cleaned fields of one line. -/
abbrev Row := List (List Char)

/-- Lines 272-273 applied to one raw line: split on tabs, then clean each
field.  The cleanup is applied field-wise with a map, so it cannot change
the number or the order of the fields of the line. -/
def cleanLine (line : List Char) : Row :=
  (splitTab line).map cleanField

/-- State of the row loop of `upload_append_csv_files` (src/SEC.py lines
268-286): `line_list` accumulates the retained rows (row 0 is the header),
`skips` records, for each removed row, the pair of the enumerate index `i`
and the cleaned fields logged at lines 284-286 and counted into
`idx_list`, and `invalid` is `invalid_rows_counter`. -/
structure NormResult where
  line_list : List Row
  skips : List (Nat × Row)
  invalid : Nat
deriving Repr, DecidableEq

/-- One iteration of the row loop (lines 271-286): split and clean the
line, append it to `line_list`, and if its field count differs from
`len(line_list[0])` (read after the append), call `line_list.remove`
(delete the first equal element), count it and record its index. -/
def normStep (acc : NormResult) (i : Nat) (line : List Char) : NormResult :=
  let cleaned := cleanLine line
  let l1 := acc.line_list ++ [cleaned]
  if cleaned.length ≠ (l1.headD []).length then
    { line_list := l1.erase cleaned
      skips := acc.skips ++ [(i, cleaned)]
      invalid := acc.invalid + 1 }
  else
    { acc with line_list := l1 }

/-- The row loop running over the remaining lines, `i` being the enumerate
index of the first of them. -/
def normLoop (i : Nat) (acc : NormResult) : List (List Char) → NormResult
  | [] => acc
  | l :: ls => normLoop (i + 1) (normStep acc i l) ls

/-- The whole `for i, line in enumerate(file)` loop of lines 268-286,
started from empty accumulators, on the list of lines returned by
`f.readlines()`. -/
def normalize (file : List (List Char)) : NormResult :=
  normLoop 0 { line_list := [], skips := [], invalid := 0 } file

/-- The `columns=line_list[0]` argument of line 290: the header row. -/
def tableHeader (r : NormResult) : Row :=
  r.line_list.headD []

/-- The `line_list[1:]` argument of line 290: the data rows placed in the
table artifact. -/
def tableRows (r : NormResult) : List Row :=
  r.line_list.tail

/-- The strings accumulated in `idx_list` (line 281-282): `f'{i}' + "."`
for each removed row. -/
def idxList (r : NormResult) : List String :=
  r.skips.map (fun p => toString p.1 ++ ".")

/-- Rounding of the exact fraction `num / den` to the nearest integer, half
rounded up.  Machine floats are not part of the embedding, so the reported
three-decimal percentage is represented exactly, scaled by 1000; the choice
of tie direction only matters at exact half-thousandths, and both the code
metric and the spec metric below use this same rounding. -/
def roundHalfUpDiv (num den : Nat) : Nat :=
  (2 * num + den) / (2 * den)

/-- The skipped-percentage metric logged at src/SEC.py line 288,
`round((invalid_rows_counter/(len(file)-1))*100, 3)`, expressed exactly in
thousandths of a percent: `round(invalid * 100000 / (len(file)-1))`. -/
def skippedPctMilli (file : List (List Char)) : Nat :=
  roundHalfUpDiv ((normalize file).invalid * 100000) (file.length - 1)

/-- Modelled from the spec, for comparison with `skippedPctMilli`: the
metric as the spec states it, `skipped / max(total,1) * 100` rounded to 3
decimals with `total = len(raw_lines) - 1`, again in thousandths of a
percent. -/
def skippedPctMilliSpec (file : List (List Char)) : Nat :=
  roundHalfUpDiv ((normalize file).invalid * 100000) (max (file.length - 1) 1)

/-- Oracles for the external collaborators of the pipeline: `fs path` is
the list of lines `f.readlines()` returns for `path`; `uploadOk path`
tells whether the Redivis upload of the table built from `path` succeeds
(line 161 `upload.create(..., raise_on_fail=True)` raises when it is
false); `slackOk` tells whether the `requests.post` of
`send_slack_message` succeeds. -/
structure Env where
  fs : String → List (List Char)
  uploadOk : String → Bool
  slackOk : Bool

/-- Observable actions of one run of `upload_append_csv_files`, in program
order: the call of `upload_to_redivis` for a path, the
`write_uploaded_tables` ledger append of a path, the `send_slack_message`
call with its message, and the `logging.error` of a failed alert. -/
inductive Event where
  | uploadCall (path : String)
  | ledgerAppend (path : String)
  | slackAlert (message : String)
  | logError (message : String)
deriving Repr, DecidableEq

/-- Models `upload_to_redivis` (src/SEC.py lines 123-185): create table if
absent, upload the CSV with `raise_on_fail=True`.  Its body is remote API
calls, so it is embedded by its control-flow outcome: `true` when the
upload completes, `false` when `upload.create` raises. -/
def upload_to_redivis (env : Env) (path : String) : Bool :=
  env.uploadOk path

/-- Models `send_slack_message` (src/SEC.py lines 307-328): post the
message; return the string "0" when the post succeeds and "1" when the
post raises (caught by the bare `except`). -/
def send_slack_message (env : Env) (_message : String) : String :=
  if env.slackOk then "0" else "1"

/-- Python truthiness of a string: a string is truthy iff it is nonempty
(used by the `if not result:` test at line 304). -/
def pyTruthy (s : String) : Bool :=
  s ≠ ""

/-- Python `repr` of a list of strings, as produced by `str(idx_list)` at
line 302: each element between single quotes, separated by ", ", inside
square brackets. -/
def pyStrListRepr (l : List String) : String :=
  "[" ++ String.intercalate ", "
    (l.map (fun s => String.mk (squote :: (s.toList ++ [squote])))) ++ "]"

/-- The alert text built at src/SEC.py line 302. -/
def alertMessage (path : String) (idxs : List String) : String :=
  "Uploading for " ++ path ++ " is completed\n" ++
  "Below you can find the path of the file with skipped rows!\n" ++
  "Check log file to see the content of each skipped row!\n" ++
  "PATH: " ++ path ++ "\nRemoved Row Indices: " ++ pyStrListRepr idxs

/-- The error text of line 305. -/
def alertFailText : String :=
  "Failed to alert in Slack Channel. Please check slack URL!"

/-- The body of the per-path loop of `upload_append_csv_files` (src/SEC.py
lines 252-305) for one path: read the file; if it has fewer than 2 lines,
append the path to the ledger and continue; otherwise normalize, build the
table, call `upload_to_redivis` (a raise aborts the iteration with the
exception propagating, flag `false`), then append the path to the ledger,
and if `idx_list` is nonempty send one Slack alert, logging an error only
when the result string is falsy.  Returns the events of this iteration and
`true` unless an exception propagated. -/
def processFile (env : Env) (path : String) : List Event × Bool :=
  if (env.fs path).length < 2 then
    ([Event.ledgerAppend path], true)
  else if upload_to_redivis env path then
    if 0 < (idxList (normalize (env.fs path))).length then
      if pyTruthy (send_slack_message env
          (alertMessage path (idxList (normalize (env.fs path))))) then
        ([Event.uploadCall path, Event.ledgerAppend path,
          Event.slackAlert (alertMessage path (idxList (normalize (env.fs path))))], true)
      else
        ([Event.uploadCall path, Event.ledgerAppend path,
          Event.slackAlert (alertMessage path (idxList (normalize (env.fs path)))),
          Event.logError alertFailText], true)
    else
      ([Event.uploadCall path, Event.ledgerAppend path], true)
  else
    ([Event.uploadCall path], false)

/-- The nested loop `for key, value in d.items(): for path in value:` of
`upload_append_csv_files`, flattened to the list of paths it visits: each
path is processed in turn; when an iteration raises (upload failure) the
exception propagates out of `upload_append_csv_files`, so the remaining
paths are not visited. -/
def runFiles (env : Env) : List String → List Event × Bool
  | [] => ([], true)
  | p :: rest =>
    let r := processFile env p
    if r.2 then
      let rr := runFiles env rest
      (r.1 ++ rr.1, rr.2)
    else
      r

/-- One file of the extracted source tree, as yielded by `os.walk`:
directory path and file name. -/
structure TreeFile where
  dirpath : String
  name : String
deriving Repr, DecidableEq

/-- The full path `dirpath + '/' + file` built at src/SEC.py line 222. -/
def filePath (t : TreeFile) : String :=
  t.dirpath ++ "/" ++ t.name

/-- Decides whether the character list `pre` is a prefix of `s`. -/
def startsWithSeq : List Char → List Char → Bool
  | [], _ => true
  | _ :: _, [] => false
  | p :: ps, c :: cs => p = c && startsWithSeq ps cs

/-- Decides whether `pat` occurs as a contiguous subsequence of `s`
(Python `pat in s` on strings). -/
def hasSubSeq (pat : List Char) : List Char → Bool
  | [] => pat.isEmpty
  | c :: cs => startsWithSeq pat (c :: cs) || hasSubSeq pat cs

/-- Decides whether `suf` is a suffix of `s` (Python `s.endswith(suf)`),
by scanning: `suf` is a suffix iff it equals `s` or is a suffix of the
tail. -/
def endsWithSeq (suf : List Char) : List Char → Bool
  | [] => suf.isEmpty
  | c :: cs => (suf = c :: cs) || endsWithSeq suf cs

/-- The name filter of src/SEC.py line 221:
`file.endswith('.tsv') and not 'checkpoint' in file`. -/
def nameOk (name : String) : Bool :=
  endsWithSeq (".tsv".toList) name.toList &&
    !(hasSubSeq ("checkpoint".toList) name.toList)

/-- The candidate filter of `get_paths_dict` (src/SEC.py lines 219-224):
walk the tree, keep the files whose name passes `nameOk` and whose full
path is not in the list read from the uploaded-files text file. -/
def candidateFiles (tree : List TreeFile) (uploaded : List String) : List TreeFile :=
  tree.filter (fun t => nameOk t.name && !(decide (filePath t ∈ uploaded)))

/-- First occurrence of each element, in order: the insertion order of the
keys of the Python `defaultdict` built at lines 215-224. -/
def firstOccur : List String → List String
  | [] => []
  | a :: as => a :: (firstOccur (as.filter (fun b => b ≠ a)))
termination_by l => l.length
decreasing_by
  simp only [List.length_cons]
  exact Nat.lt_succ_of_le (List.length_filter_le _ _)

/-- Lexicographic comparison of character lists by code point, the order
Python `sorted` uses on strings. -/
def leChars : List Char → List Char → Bool
  | [], _ => true
  | _ :: _, [] => false
  | a :: as, b :: bs => if a = b then leChars as bs else decide (a < b)

/-- Insertion of a string into a sorted list, keeping stability. -/
def insertLe (a : String) : List String → List String
  | [] => [a]
  | b :: bs => if leChars a.toList b.toList then a :: b :: bs else b :: insertLe a bs

/-- Ascending stable sort of a list of strings, modelling the
`sorted(v, reverse=False)` of src/SEC.py line 226. -/
def sortLe : List String → List String
  | [] => []
  | a :: as => insertLe a (sortLe as)

/-- The dictionary returned by `get_paths_dict` (src/SEC.py lines
215-228): keys are the candidate file names in first-occurrence order,
and each key maps to the sorted list of the full paths of the candidates
bearing that name. -/
def get_paths_dict (tree : List TreeFile) (uploaded : List String) :
    List (String × List String) :=
  let cands := candidateFiles tree uploaded
  (firstOccur (cands.map (·.name))).map
    (fun k => (k, sortLe ((cands.filter (fun t => t.name = k)).map filePath)))

/-- The sequence of paths the nested loop of `upload_append_csv_files`
visits: the dictionary values, flattened in key order. -/
def dictPaths (d : List (String × List String)) : List String :=
  (d.map Prod.snd).flatten

/-- One run of `upload_append_csv_files` (src/SEC.py lines 230-305) over a
source tree, starting from the ledger contents `uploaded` (the lines
`get_uploaded_tables` reads): build the dictionary, then process every
path in order. -/
def upload_append_csv_files (env : Env) (tree : List TreeFile)
    (uploaded : List String) : List Event × Bool :=
  runFiles env (dictPaths (get_paths_dict tree uploaded))

/-- The paths appended to the uploaded-files text file during a run: one
`write_uploaded_tables` line per `ledgerAppend` event, in order.  The
ledger after a run is the old contents followed by these. -/
def appendedPaths (evs : List Event) : List String :=
  evs.filterMap (fun e => match e with
    | Event.ledgerAppend p => some p
    | _ => none)

/-- Rows of cleaned field count `W`, in order: the retention predicate the
spec states for RowNormalizer ("if its cleaned field count differs from
`W`, the row is excluded, otherwise retained, preserving order"). -/
def keepW (W : Nat) (rows : List Row) : List Row :=
  rows.filter (fun r => decide (r.length = W))

/-- Skip-report entries for the given lines: one `(index, cleaned fields)`
pair per line whose cleaned field count differs from `W`, indices counting
from `start` in file order. -/
def skipReportFrom (W start : Nat) : List (List Char) → List (Nat × Row)
  | [] => []
  | l :: ls =>
    if (cleanLine l).length ≠ W then
      (start, cleanLine l) :: skipReportFrom W (start + 1) ls
    else
      skipReportFrom W (start + 1) ls

/-- The header line `"a\tb\tc\n"` of the spec's concrete scenario. -/
def exHeaderLine : List Char := ['a', '\t', 'b', '\t', 'c', '\n']

/-- The concrete scenario file of the spec: header plus data rows
`"1\t2\t3\n"`, `"x\ty\n"` (2 fields, mismatched), `"4\t5\t6\n"`. -/
def exFile : List (List Char) :=
  [exHeaderLine,
   ['1', '\t', '2', '\t', '3', '\n'],
   ['x', '\t', 'y', '\n'],
   ['4', '\t', '5', '\t', '6', '\n']]

/-- Appending one element and erasing it again is the identity when the
element is absent from the rest: the `list.remove` of line 279 deletes
exactly the element just appended in that case. -/
theorem erase_append_singleton {x : Row} {l : List Row} (h : x ∉ l) :
    (l ++ [x]).erase x = l := by
  rw [List.erase_append_right _ h, List.erase_cons_head]
  simp

/-- Membership in `keepW` forces the field count `W`. -/
theorem mem_keepW {W : Nat} {r : Row} {rows : List Row} (h : r ∈ keepW W rows) :
    r.length = W := by
  simp only [keepW, List.mem_filter, decide_eq_true_eq] at h
  exact h.2

/-- A row whose field count differs from `W` is not among the retained
rows headed by a `W`-field header. -/
theorem not_mem_of_length_ne {c hd : Row} {rows : List Row} {W : Nat}
    (hW : hd.length = W) (hrows : ∀ r ∈ rows, r.length = W)
    (hc : c.length ≠ W) : c ∉ hd :: rows := by
  intro hmem
  rcases List.mem_cons.mp hmem with h | h
  · exact hc (h ▸ hW)
  · exact hc (hrows c h)

/-- One retained-or-removed iteration, from a state whose rows all have the
header's field count `W`. -/
theorem normStep_eq (W i : Nat) (l : List Char) (hd : Row) (rows : List Row)
    (sk : List (Nat × Row)) (inv : Nat) (hW : hd.length = W)
    (hrows : ∀ r ∈ rows, r.length = W) :
    normStep ⟨hd :: rows, sk, inv⟩ i l =
      if (cleanLine l).length = W then
        ⟨hd :: (rows ++ [cleanLine l]), sk, inv⟩
      else
        ⟨hd :: rows, sk ++ [(i, cleanLine l)], inv + 1⟩ := by
  by_cases hmis : (cleanLine l).length = W
  · simp [normStep, hmis, hW]
  · have hnotmem : cleanLine l ∉ hd :: rows := not_mem_of_length_ne hW hrows hmis
    have herase : ((hd :: rows) ++ [cleanLine l]).erase (cleanLine l) = hd :: rows :=
      erase_append_singleton hnotmem
    simp [normStep, hmis, hW]
    exact herase

/-- Characterization of the row loop from any state whose rows all share
the header's field count: the loop appends the matching cleaned lines to
the rows and the mismatched ones (with their enumerate indices) to the
skip report. -/
theorem normLoop_eq (W : Nat) (lines : List (List Char)) :
    ∀ (i : Nat) (hd : Row) (rows : List Row) (sk : List (Nat × Row)) (inv : Nat),
      hd.length = W → (∀ r ∈ rows, r.length = W) →
      normLoop i ⟨hd :: rows, sk, inv⟩ lines =
        ⟨hd :: (rows ++ keepW W (lines.map cleanLine)),
         sk ++ skipReportFrom W i lines,
         inv + (skipReportFrom W i lines).length⟩ := by
  induction lines with
  | nil =>
    intro i hd rows sk inv hW hrows
    simp [normLoop, keepW, skipReportFrom]
  | cons l ls ih =>
    intro i hd rows sk inv hW hrows
    rw [normLoop, normStep_eq W i l hd rows sk inv hW hrows]
    by_cases hmis : (cleanLine l).length = W
    · rw [if_pos hmis]
      rw [ih (i + 1) hd (rows ++ [cleanLine l]) sk inv hW (by
        intro r hr
        rcases List.mem_append.mp hr with h | h
        · exact hrows r h
        · simpa using (List.mem_singleton.mp h) ▸ hmis)]
      have hkeep : keepW W ((l :: ls).map cleanLine) =
          cleanLine l :: keepW W (ls.map cleanLine) := by
        simp [keepW, hmis]
      have hskip : skipReportFrom W i (l :: ls) = skipReportFrom W (i + 1) ls := by
        simp [skipReportFrom, hmis]
      rw [hkeep, hskip]
      simp [List.append_assoc]
    · rw [if_neg hmis]
      rw [ih (i + 1) hd rows (sk ++ [(i, cleanLine l)]) (inv + 1) hW hrows]
      have hkeep : keepW W ((l :: ls).map cleanLine) = keepW W (ls.map cleanLine) := by
        simp [keepW, hmis]
      have hskip : skipReportFrom W i (l :: ls) =
          (i, cleanLine l) :: skipReportFrom W (i + 1) ls := by
        simp [skipReportFrom, hmis]
      rw [hkeep, hskip]
      refine NormResult.mk.injEq .. ▸ ?_
      simp [List.append_assoc]
      omega

/-- The normalize loop on a nonempty file: the header is retained as row
0, a subsequent line is retained iff its cleaned field count equals the
header's, and the skip report lists the mismatched lines with their file
line indices counted from 1 (the header being line 0). -/
theorem normalize_cons (hd : List Char) (rest : List (List Char)) :
    normalize (hd :: rest) =
      ⟨cleanLine hd :: keepW (cleanLine hd).length (rest.map cleanLine),
       skipReportFrom (cleanLine hd).length 1 rest,
       (skipReportFrom (cleanLine hd).length 1 rest).length⟩ := by
  have h0 : normStep ⟨[], [], 0⟩ 0 hd = ⟨[cleanLine hd], [], 0⟩ := by
    simp [normStep]
  rw [normalize, normLoop, h0]
  simpa using
    normLoop_eq (cleanLine hd).length rest 1 (cleanLine hd) [] [] 0 rfl (by simp)

/-- Retained and skipped counts sum to the number of lines considered. -/
theorem keepW_skip_length (W : Nat) :
    ∀ (i : Nat) (ls : List (List Char)),
      (keepW W (ls.map cleanLine)).length + (skipReportFrom W i ls).length = ls.length := by
  intro i ls
  induction ls generalizing i with
  | nil => simp [keepW, skipReportFrom]
  | cons l ls ih =>
    by_cases hmis : (cleanLine l).length = W
    · have h1 : keepW W ((l :: ls).map cleanLine) =
          cleanLine l :: keepW W (ls.map cleanLine) := by
        simp [keepW, hmis]
      have h2 : skipReportFrom W i (l :: ls) = skipReportFrom W (i + 1) ls := by
        simp [skipReportFrom, hmis]
      have h3 := ih (i + 1)
      rw [h1, h2]
      simp only [List.length_cons]
      omega
    · have h1 : keepW W ((l :: ls).map cleanLine) = keepW W (ls.map cleanLine) := by
        simp [keepW, hmis]
      have h2 : skipReportFrom W i (l :: ls) =
          (i, cleanLine l) :: skipReportFrom W (i + 1) ls := by
        simp [skipReportFrom, hmis]
      have h3 := ih (i + 1)
      rw [h1, h2]
      simp only [List.length_cons]
      omega

/-- The loop state after processing a prefix continues into the rest: the
state reached at iteration `k` of the loop on `file` is the state of
`normalize` on the first `k` lines. -/
theorem normLoop_append (xs ys : List (List Char)) :
    ∀ (i : Nat) (acc : NormResult),
      normLoop i acc (xs ++ ys) = normLoop (i + xs.length) (normLoop i acc xs) ys := by
  induction xs with
  | nil => intro i acc; simp [normLoop]
  | cons x xs ih =>
    intro i acc
    have h1 : normLoop i acc ((x :: xs) ++ ys) =
        normLoop (i + 1) (normStep acc i x) (xs ++ ys) := rfl
    have h2 : normLoop i acc (x :: xs) = normLoop (i + 1) (normStep acc i x) xs := rfl
    rw [h1, h2, ih (i + 1) (normStep acc i x)]
    congr 1
    simp only [List.length_cons]
    omega

/-- Replacing a character by itself changes nothing: the quote
"replacements" of line 273 are identities. -/
theorem pyReplaceChar_self (a : Char) (s : List Char) : pyReplaceChar a a s = s := by
  have h : (fun c => if c = a then a else c) = id := by
    funext c
    by_cases hc : c = a <;> simp [hc]
  simp [pyReplaceChar, h]

/-- The cleanup reduces to: backslashes become spaces, newline characters
are deleted. -/
theorem cleanField_eq (s : List Char) :
    cleanField s = pyDeleteChar nlChar (pyReplaceChar bslash ' ' s) := by
  simp [cleanField, pyReplaceChar_self]

/-- No literal backslash survives the cleanup. -/
theorem bslash_not_mem_cleanField (s : List Char) : bslash ∉ cleanField s := by
  rw [cleanField_eq]
  intro h
  have h1 : bslash ∈ pyReplaceChar bslash ' ' s := List.mem_of_mem_filter h
  simp only [pyReplaceChar, List.mem_map] at h1
  obtain ⟨c, _, hc⟩ := h1
  by_cases hb : c = bslash
  · rw [if_pos hb] at hc
    exact absurd hc (by decide)
  · rw [if_neg hb] at hc
    exact hb hc

/-- No newline character survives the cleanup. -/
theorem nl_not_mem_cleanField (s : List Char) : nlChar ∉ cleanField s := by
  rw [cleanField_eq]
  intro h
  have h1 := List.of_mem_filter h
  simp at h1

/-- The example field of the spec's escaping property: the raw characters
of `Line1\nwith\"quote`, with two literal backslashes. -/
def exField : List Char :=
  ['L', 'i', 'n', 'e', '1', bslash, 'n', 'w', 'i', 't', 'h', bslash, dquote,
   'q', 'u', 'o', 't', 'e']

/-- C9.  Field-escaping cleanup: for every field, the cleanup leaves no
literal backslash and no line terminator; being applied field-wise with a
map it never changes the number or order of a line's fields; and on the
example field `Line1\nwith\"quote` it yields `Line1 nwith "quote`, a field
with no literal backslash and a plain double quote.  It is a function, so
it is deterministic. -/
theorem C9_field_escaping_cleanup :
    (∀ s : List Char, bslash ∉ cleanField s ∧ nlChar ∉ cleanField s) ∧
    (∀ line : List Char, (cleanLine line).length = (splitTab line).length) ∧
    cleanField exField =
      ['L', 'i', 'n', 'e', '1', ' ', 'n', 'w', 'i', 't', 'h', ' ', dquote,
       'q', 'u', 'o', 't', 'e'] ∧
    bslash ∉ cleanField exField ∧ dquote ∈ cleanField exField := by
  refine ⟨fun s => ⟨bslash_not_mem_cleanField s, nl_not_mem_cleanField s⟩, ?_, ?_, ?_, ?_⟩
  · intro line
    simp [cleanLine]
  · decide
  · exact bslash_not_mem_cleanField exField
  · decide

/-- C1 (amended).  Skip correctness: for every file (header plus `N` data
lines of which `k` have a cleaned field count different from the header's
`W`), normalization retains exactly `N - k` data rows (stated additively:
retained + skipped = `N`), and the skip report has exactly the `k`
mismatched rows, each carrying its cleaned field sequence and its 0-based
file line index — the header counting as line 0, so the `j`-th data row is
reported with index `j + 1`, not `j`. -/
theorem C1_skip_correctness_amended (hd : List Char) (rest : List (List Char)) :
    (tableRows (normalize (hd :: rest))).length + (normalize (hd :: rest)).skips.length
        = rest.length ∧
    (normalize (hd :: rest)).skips = skipReportFrom (cleanLine hd).length 1 rest := by
  rw [normalize_cons]
  refine ⟨?_, rfl⟩
  simpa [tableRows] using keepW_skip_length (cleanLine hd).length 1 rest

/-- C1 counterexample: on the spec's own concrete scenario the skip report
is `[(index 2, fields [x, y])]` — the mismatched second data row is
reported with file line index 2, not with data-row index 1 as the claim
states. -/
theorem C1_counterexample :
    (normalize exFile).skips = [(2, [['x'], ['y']])] ∧
    (normalize exFile).skips ≠ [(1, [['x'], ['y']])] := by
  decide

/-- C2.  Schema invariant: for every input file with at least 2 lines,
every data row placed in the table artifact (the `line_list[1:]` rows of
the DataFrame built at line 290) has the same field count as the header
row `line_list[0]`. -/
theorem C2_schema_invariant (file : List (List Char)) (h : 2 ≤ file.length) :
    ((tableRows (normalize file)).all
        (fun row => row.length = (tableHeader (normalize file)).length)) = true := by
  cases file with
  | nil => simp at h
  | cons hd rest =>
    rw [normalize_cons]
    simp only [tableRows, tableHeader, List.tail_cons, List.headD_cons]
    rw [List.all_eq_true]
    intro row hrow
    simp [mem_keepW hrow]

/-- Witness for C2 at the concrete scenario file. -/
theorem C2_witness :
    2 ≤ exFile.length ∧
    ((tableRows (normalize exFile)).all
        (fun row => row.length = (tableHeader (normalize exFile)).length)) = true :=
  ⟨by decide, C2_schema_invariant exFile (by decide)⟩

/-- C7 (amended).  Skipped-percentage metric: for every file reaching the
metric (at least 2 lines), the value logged at line 288 equals
`skipped / max(total, 1) * 100` rounded to 3 decimals with
`total = len(file) - 1`, both sides in exact thousandths of a percent; on
the concrete scenario (3 data lines, 1 mismatched) the percentage is
`round(1/3*100, 3) = 33.333`, i.e. 33333 thousandths — not 50.0 as the
claim states. -/
theorem C7_skipped_percentage_amended (file : List (List Char)) (h : 2 ≤ file.length) :
    skippedPctMilli file = skippedPctMilliSpec file ∧
    skippedPctMilli exFile = 33333 := by
  constructor
  · unfold skippedPctMilli skippedPctMilliSpec
    have hm : max (file.length - 1) 1 = file.length - 1 := by omega
    rw [hm]
  · decide

/-- C7 counterexample: on the concrete scenario the metric evaluates to
33.333 percent (33333 thousandths), not the claimed 50.0 percent. -/
theorem C7_counterexample :
    skippedPctMilli exFile = 33333 ∧ skippedPctMilli exFile ≠ 50000 := by
  decide

/-- Witness for C7 at the concrete scenario file. -/
theorem C7_witness :
    2 ≤ exFile.length ∧
    (skippedPctMilli exFile = skippedPctMilliSpec exFile ∧
      skippedPctMilli exFile = 33333) :=
  ⟨by decide, C7_skipped_percentage_amended exFile (by decide)⟩

/-- C10.  Loop invariant of normalization: in the state reached after any
number of iterations of the row loop, every element of `line_list` has the
same field count as `line_list[0]`; consequently, when the next appended
cleaned row is mismatched, the `line_list.remove` call of line 279 deletes
exactly the row just appended — never the header and never an earlier
retained row, whatever the cleaned fields are (in particular even if they
equal those of some earlier skipped row, which is no longer in the
list). -/
theorem C10_remove_deletes_appended_row (file : List (List Char)) (k : Nat) (cleaned : Row)
    (hmis : cleaned.length ≠
      (((normalize (file.take k)).line_list ++ [cleaned]).headD []).length) :
    ((normalize (file.take k)).line_list.all
        (fun r => r.length = ((normalize (file.take k)).line_list.headD []).length)) = true ∧
    ((normalize (file.take k)).line_list ++ [cleaned]).erase cleaned
      = (normalize (file.take k)).line_list := by
  generalize hls : file.take k = ls at hmis ⊢
  cases ls with
  | nil =>
    exfalso
    apply hmis
    simp [normalize, normLoop]
  | cons hd rest =>
    rw [normalize_cons] at hmis ⊢
    have hW : cleaned.length ≠ (cleanLine hd).length := by
      simpa using hmis
    constructor
    · rw [List.all_eq_true]
      intro r hr
      rcases List.mem_cons.mp hr with h | h
      · simp [h]
      · simp [mem_keepW h]
    · exact erase_append_singleton
        (not_mem_of_length_ne rfl (fun r hr => mem_keepW hr) hW)

/-- Witness for C10: the state after the first 2 lines of the concrete
scenario file, about to remove the mismatched cleaned row `[x, y]`. -/
theorem C10_witness :
    (([['x'], ['y']] : Row).length ≠
      (((normalize (exFile.take 2)).line_list ++ [([['x'], ['y']] : Row)]).headD []).length) ∧
    (((normalize (exFile.take 2)).line_list.all
        (fun r => r.length = ((normalize (exFile.take 2)).line_list.headD []).length)) = true ∧
      ((normalize (exFile.take 2)).line_list ++ [([['x'], ['y']] : Row)]).erase
          ([['x'], ['y']] : Row)
        = (normalize (exFile.take 2)).line_list) :=
  ⟨by decide, C10_remove_deletes_appended_row exFile 2 [['x'], ['y']] (by decide)⟩

/-- Recognises the `logging.error` event of a failed Slack alert. -/
def isLogError : Event → Bool
  | Event.logError _ => true
  | _ => false

/-- Recognises a Slack alert event. -/
def isSlackAlert : Event → Bool
  | Event.slackAlert _ => true
  | _ => false

/-- A well-formed two-line file (1-field header, 1 matching data row) used
by the concrete environments below. -/
def goodFile : List (List Char) :=
  [['h', '\n'], ['1', '\n']]

/-- Environment in which the upload of path "a" raises and every other
upload succeeds; every path reads as the well-formed `goodFile`. -/
def exEnvFail : Env :=
  { fs := fun _ => goodFile
    uploadOk := fun p => decide (p ≠ "a")
    slackOk := true }

/-- Environment in which every upload succeeds and every path reads as the
well-formed `goodFile`. -/
def exEnvOk : Env :=
  { fs := fun _ => goodFile
    uploadOk := fun _ => true
    slackOk := true }

/-- Environment in which every path reads as a file with only a header
line. -/
def exEnvEmpty : Env :=
  { fs := fun _ => [exHeaderLine]
    uploadOk := fun _ => true
    slackOk := true }

/-- Environment in which every upload succeeds, every path reads as the
concrete scenario file (which has one skipped row), and the Slack post
raises. -/
def exEnvSlackFail : Env :=
  { fs := fun _ => exFile
    uploadOk := fun _ => true
    slackOk := false }

/-- Unfolding of one step of the path loop. -/
theorem runFiles_cons (env : Env) (q : String) (rest : List String) :
    runFiles env (q :: rest) =
      if (processFile env q).2 then
        ((processFile env q).1 ++ (runFiles env rest).1, (runFiles env rest).2)
      else processFile env q :=
  rfl

/-- A ledger-append event produced while processing one path names that
path. -/
theorem processFile_event_path {env : Env} {p q : String}
    (h : Event.ledgerAppend q ∈ (processFile env p).1) : q = p := by
  unfold processFile at h
  split_ifs at h <;> simp_all

/-- When the file is long enough and the upload raises, the iteration
stops after the upload call: no ledger append, exception propagating. -/
theorem processFile_upload_fail {env : Env} {p : String}
    (hlen : 2 ≤ (env.fs p).length) (hfail : env.uploadOk p = false) :
    processFile env p = ([Event.uploadCall p], false) := by
  have h2 : ¬ (env.fs p).length < 2 := by omega
  simp [processFile, upload_to_redivis, h2, hfail]

/-- When the upload succeeds, the iteration completes and appends the path
to the ledger. -/
theorem processFile_upload_ok {env : Env} {p : String} (h : env.uploadOk p = true) :
    (processFile env p).2 = true ∧ Event.ledgerAppend p ∈ (processFile env p).1 := by
  unfold processFile upload_to_redivis
  split_ifs with h1 h2 h3 <;> simp_all

/-- C3 (amended).  Partial-failure propagation: when the upload raises for
a file, the exception propagates out of `upload_append_csv_files` — the
failed file is not ledger-recorded, and the remaining not-yet-processed
files are not attempted at all in that run (no normalization, upload or
ledger append for them); they are retried on the next run. -/
theorem C3_upload_failure_aborts_run (env : Env) (p : String) (rest : List String)
    (hlen : 2 ≤ (env.fs p).length) (hfail : env.uploadOk p = false) :
    runFiles env (p :: rest) = ([Event.uploadCall p], false) := by
  rw [runFiles_cons, processFile_upload_fail hlen hfail]
  simp

/-- C3 counterexample: a concrete run over paths "a" and "b" in which the
upload of "a" raises while "b" would succeed; the run stops with the
upload call of "a" — path "b" is never uploaded nor ledger-recorded,
contradicting the claimed continuation with the remaining files. -/
theorem C3_counterexample :
    runFiles exEnvFail ["a", "b"] = ([Event.uploadCall "a"], false) ∧
    exEnvFail.uploadOk "b" = true ∧
    Event.uploadCall "b" ∉ (runFiles exEnvFail ["a", "b"]).1 ∧
    Event.ledgerAppend "b" ∉ (runFiles exEnvFail ["a", "b"]).1 := by
  decide

/-- Witness for C3 (amended) at the concrete failing environment. -/
theorem C3_witness :
    (2 ≤ (exEnvFail.fs "a").length ∧ exEnvFail.uploadOk "a" = false) ∧
    runFiles exEnvFail ["a", "b"] = ([Event.uploadCall "a"], false) :=
  ⟨⟨by decide, by decide⟩,
    C3_upload_failure_aborts_run exEnvFail "a" ["b"] (by decide) (by decide)⟩

/-- C4.  Ledger atomicity on upload failure: in any run, a file whose
upload collaborator call raises (its file is long enough to reach the
upload, and its upload fails) is never appended to the ledger — the
append of line 298 runs only after `upload_to_redivis` has returned
successfully, so the file stays eligible for retry on the next run. -/
theorem C4_no_ledger_append_on_upload_failure (env : Env) (paths : List String)
    (p : String) (hlen : 2 ≤ (env.fs p).length) (hfail : env.uploadOk p = false) :
    Event.ledgerAppend p ∉ (runFiles env paths).1 := by
  induction paths with
  | nil => simp [runFiles]
  | cons q rest ih =>
    rw [runFiles_cons]
    by_cases hq2 : (processFile env q).2 = true
    · rw [if_pos hq2]
      intro hmem
      rcases List.mem_append.mp hmem with h | h
      · have hpq := processFile_event_path h
        rw [← hpq] at hq2
        rw [processFile_upload_fail hlen hfail] at hq2
        simp at hq2
      · exact ih h
    · rw [if_neg hq2]
      intro hmem
      have hpq := processFile_event_path hmem
      rw [← hpq] at hmem
      rw [processFile_upload_fail hlen hfail] at hmem
      simp at hmem

/-- Witness for C4 at the concrete failing environment. -/
theorem C4_witness :
    (2 ≤ (exEnvFail.fs "a").length ∧ exEnvFail.uploadOk "a" = false) ∧
    Event.ledgerAppend "a" ∉ (runFiles exEnvFail ["a", "b"]).1 :=
  ⟨⟨by decide, by decide⟩,
    C4_no_ledger_append_on_upload_failure exEnvFail ["a", "b"] "a" (by decide) (by decide)⟩

/-- C6.  Empty-file handling: a file with fewer than 2 lines yields zero
retained data rows and zero skip entries; its path is appended to the
ledger and the upload collaborator is never invoked for it — the
iteration ends normally (a valid non-error state). -/
theorem C6_empty_file (env : Env) (p : String) (h : (env.fs p).length < 2) :
    processFile env p = ([Event.ledgerAppend p], true) ∧
    tableRows (normalize (env.fs p)) = [] ∧
    (normalize (env.fs p)).skips = [] := by
  refine ⟨by simp [processFile, h], ?_⟩
  cases hfs : env.fs p with
  | nil =>
    simp [normalize, normLoop, tableRows]
  | cons l rest =>
    cases rest with
    | nil =>
      rw [normalize_cons]
      simp [tableRows, keepW, skipReportFrom]
    | cons l2 r2 =>
      rw [hfs] at h
      simp at h
      omega

/-- Witness for C6 at the header-only environment. -/
theorem C6_witness :
    (exEnvEmpty.fs "a").length < 2 ∧
    (processFile exEnvEmpty "a" = ([Event.ledgerAppend "a"], true) ∧
      tableRows (normalize (exEnvEmpty.fs "a")) = [] ∧
      (normalize (exEnvEmpty.fs "a")).skips = []) :=
  ⟨by decide, C6_empty_file exEnvEmpty "a" (by decide)⟩

/-- In a run whose uploads all succeed, the run completes and every
visited path is appended to the ledger. -/
theorem runFiles_all_ok (env : Env) (hup : ∀ p, env.uploadOk p = true)
    (paths : List String) :
    (runFiles env paths).2 = true ∧
    ∀ p ∈ paths, Event.ledgerAppend p ∈ (runFiles env paths).1 := by
  induction paths with
  | nil => simp [runFiles]
  | cons q rest ih =>
    rw [runFiles_cons, if_pos (processFile_upload_ok (hup q)).1]
    refine ⟨ih.1, ?_⟩
    intro p hp
    rcases List.mem_cons.mp hp with h | h
    · subst h
      exact List.mem_append.mpr (Or.inl (processFile_upload_ok (hup p)).2)
    · exact List.mem_append.mpr (Or.inr (ih.2 p h))

/-- Every element of a list occurs among its first occurrences. -/
theorem mem_firstOccur (a : String) : ∀ (l : List String), a ∈ l → a ∈ firstOccur l := by
  intro l
  induction l using firstOccur.induct with
  | case1 =>
    intro h
    simp at h
  | case2 b bs ih =>
    intro h
    rw [firstOccur]
    by_cases hab : a = b
    · exact hab ▸ List.mem_cons_self ..
    · refine List.mem_cons_of_mem _ (ih ?_)
      refine List.mem_filter.mpr ⟨?_, by simp [hab]⟩
      rcases List.mem_cons.mp h with h1 | h1
      · exact absurd h1 hab
      · exact h1

/-- Insertion preserves membership. -/
theorem mem_insertLe {a b : String} : ∀ {l : List String},
    (a ∈ insertLe b l ↔ a = b ∨ a ∈ l) := by
  intro l
  induction l with
  | nil => simp [insertLe]
  | cons c cs ih =>
    unfold insertLe
    split_ifs with hc
    · simp [List.mem_cons]
    · simp only [List.mem_cons, ih]
      tauto

/-- Sorting preserves membership. -/
theorem mem_sortLe {a : String} : ∀ (l : List String), (a ∈ sortLe l ↔ a ∈ l) := by
  intro l
  induction l with
  | nil => simp [sortLe]
  | cons b bs ih => simp [sortLe, mem_insertLe, ih]

/-- Every candidate's full path is visited by the nested loop built from
the dictionary. -/
theorem mem_dictPaths_of_candidate {tree : List TreeFile} {uploaded : List String}
    {t : TreeFile} (ht : t ∈ candidateFiles tree uploaded) :
    filePath t ∈ dictPaths (get_paths_dict tree uploaded) := by
  unfold get_paths_dict dictPaths
  have hname : t.name ∈ firstOccur ((candidateFiles tree uploaded).map (·.name)) :=
    mem_firstOccur _ _ (List.mem_map_of_mem _ ht)
  rw [List.mem_flatten]
  refine ⟨sortLe (((candidateFiles tree uploaded).filter
      (fun x => x.name = t.name)).map filePath), ?_, ?_⟩
  · rw [List.mem_map]
    refine ⟨(t.name, sortLe (((candidateFiles tree uploaded).filter
        (fun x => x.name = t.name)).map filePath)), ?_, rfl⟩
    rw [List.mem_map]
    exact ⟨t.name, hname, rfl⟩
  · rw [mem_sortLe]
    exact List.mem_map_of_mem _ (List.mem_filter.mpr ⟨ht, by simp⟩)

/-- C5.  Idempotence across runs: when a run's uploads all succeed (the
`uploadOk` oracle is constantly true, an unchanged remote that accepts
every upload), re-running `upload_append_csv_files` on the unchanged tree
with the ledger produced by the first run yields the empty dictionary:
the second run performs no normalization, no upload call and no ledger
append (no events at all), because every file path recorded during the
first run is excluded from the candidates of the second. -/
theorem C5_idempotence (env : Env) (tree : List TreeFile) (uploaded : List String)
    (hup : env.uploadOk = fun _ => true) :
    upload_append_csv_files env tree
        (uploaded ++ appendedPaths (upload_append_csv_files env tree uploaded).1)
      = ([], true) := by
  have hup2 : ∀ p, env.uploadOk p = true := fun p => by rw [hup]
  have hrec : ∀ t ∈ candidateFiles tree uploaded,
      filePath t ∈ appendedPaths (upload_append_csv_files env tree uploaded).1 := by
    intro t ht
    have hmem := mem_dictPaths_of_candidate ht
    have hledger := (runFiles_all_ok env hup2
      (dictPaths (get_paths_dict tree uploaded))).2 (filePath t) hmem
    unfold appendedPaths
    rw [List.mem_filterMap]
    exact ⟨Event.ledgerAppend (filePath t), hledger, rfl⟩
  have hcand : candidateFiles tree
      (uploaded ++ appendedPaths (upload_append_csv_files env tree uploaded).1) = [] := by
    rw [candidateFiles, List.filter_eq_nil_iff]
    intro t ht
    by_cases hok : nameOk t.name
    · by_cases hin : filePath t ∈ uploaded
      · simp [hin]
      · have hc : t ∈ candidateFiles tree uploaded :=
          List.mem_filter.mpr ⟨ht, by simp [hok, hin]⟩
        have hp := hrec t hc
        simp [hok, hp]
    · simp [hok]
  simp only [upload_append_csv_files, get_paths_dict] at hcand ⊢
  rw [hcand]
  simp [dictPaths, firstOccur, runFiles]

/-- A two-file source tree for the idempotence witness. -/
def exTree : List TreeFile :=
  [⟨"./unzip_files/2011q3_notes", "tag.tsv"⟩, ⟨"./unzip_files/2011q4_notes", "tag.tsv"⟩]

/-- Witness for C5 at a concrete all-uploads-succeed environment. -/
theorem C5_witness :
    exEnvOk.uploadOk = (fun _ => true) ∧
    upload_append_csv_files exEnvOk exTree
        ([] ++ appendedPaths (upload_append_csv_files exEnvOk exTree []).1)
      = ([], true) :=
  ⟨rfl, C5_idempotence exEnvOk exTree [] rfl⟩

/-- C8 (code bug).  Alert failure handling: the branch that should log a
failed Slack alert is dead code — `send_slack_message` returns the
strings "0" (delivered) and "1" (not delivered), both of which are truthy
in Python, so `if not result:` at line 304 never fires and a non-delivered
alert is never reported.  The first conjunct shows no run of an iteration
ever produces the `logError` event, for any environment (in particular
with the Slack post failing); the remaining conjuncts show, on a concrete
file with skipped rows and a failing Slack post, that the failure result
is truthy, exactly one alert is emitted, and the iteration still completes
with the ledger append in effect (no abort, no rollback). -/
theorem C8_alert_failure_never_logged :
    (∀ (env : Env) (p : String), (processFile env p).1.filter isLogError = []) ∧
    pyTruthy (send_slack_message exEnvSlackFail
      (alertMessage "p" (idxList (normalize exFile)))) = true ∧
    ((processFile exEnvSlackFail "p").1.filter isSlackAlert).length = 1 ∧
    (processFile exEnvSlackFail "p").2 = true ∧
    Event.ledgerAppend "p" ∈ (processFile exEnvSlackFail "p").1 := by
  refine ⟨?_, by decide, by decide, by decide, by decide⟩
  intro env p
  have htr : ∀ s, pyTruthy (send_slack_message env s) = true := by
    intro s
    unfold send_slack_message pyTruthy
    cases env.slackOk <;> simp
  unfold processFile
  split_ifs with h1 h2 h3 h4
  · simp [isLogError]
  · simp [isLogError]
  · exact absurd (htr _) h4
  · simp [isLogError]
  · simp [isLogError]

end SEC
